import Mathlib

/-!
Verification of `src/rand_distr/src/dirichlet.rs`: the `Dirichlet`
parameter object (constructors `new` and `new_with_size` with their
validation rules) and its `sample` routine (per-component Gamma draws
followed by a single normalization pass).

Floating-point `f64` values are embedded as exact rationals extended
with the IEEE special values NaN and signed infinity; the arithmetic on
finite values is exact (rounding is not modelled), while the IEEE rules
for comparisons against NaN, division by zero and `0 * inf` are kept,
since the validation predicates and the underflow edge case depend on
them.
-/

/-- Model of an `f64` value: NaN, a signed infinity (`inf true` is
`+inf`, `inf false` is `-inf`), or a finite value held as an exact
rational. -/
inductive F64 where
  | nan : F64
  | inf : Bool → F64
  | fin : ℚ → F64
deriving DecidableEq

/-- IEEE `>` comparison: any comparison involving NaN is false;
`+inf` exceeds every finite value and `-inf`; finite values compare
exactly. -/
def F64.gt : F64 → F64 → Bool
  | .nan, _ => false
  | _, .nan => false
  | .inf s, .inf t => s && !t
  | .inf s, .fin _ => s
  | .fin _, .inf s => !s
  | .fin a, .fin b => decide (b < a)

/-- IEEE addition on the model: NaN propagates, `+inf + -inf` is NaN,
an infinity absorbs finite addends, finite addition is exact. -/
def F64.add : F64 → F64 → F64
  | .nan, _ => .nan
  | _, .nan => .nan
  | .inf s, .inf t => if s = t then .inf s else .nan
  | .inf s, .fin _ => .inf s
  | .fin _, .inf t => .inf t
  | .fin a, .fin b => .fin (a + b)

/-- IEEE multiplication on the model: NaN propagates, `0 * inf` is NaN,
a nonzero finite value scales an infinity by its sign, finite
multiplication is exact. -/
def F64.mul : F64 → F64 → F64
  | .nan, _ => .nan
  | _, .nan => .nan
  | .inf s, .inf t => .inf (s == t)
  | .inf s, .fin q => if q = 0 then .nan else .inf (s == decide (0 < q))
  | .fin q, .inf s => if q = 0 then .nan else .inf (s == decide (0 < q))
  | .fin a, .fin b => .fin (a * b)

/-- IEEE division on the model: NaN propagates, `inf / inf` is NaN,
a nonzero finite value divided by zero gives a signed infinity
(zero is unsigned here and treated as `+0`), `0 / 0` is NaN, finite
division away from zero is exact. -/
def F64.div : F64 → F64 → F64
  | .nan, _ => .nan
  | _, .nan => .nan
  | .inf _, .inf _ => .nan
  | .inf s, .fin q => .inf (s == decide (0 ≤ q))
  | .fin _, .inf _ => .fin 0
  | .fin a, .fin b =>
    if b = 0 then (if a = 0 then .nan else .inf (decide (0 < a))) else .fin (a / b)

/-- `true` exactly when the value is finite and strictly positive. -/
def F64.posFin : F64 → Bool
  | .fin q => decide (0 < q)
  | _ => false

/-- Error type returned from `Dirichlet::new` / `Dirichlet::new_with_size`
(`enum Error` in the source). -/
inductive Error where
  | AlphaTooShort : Error
  | AlphaTooSmall : Error
  | SizeTooSmall : Error
deriving DecidableEq

/-- The `Dirichlet` parameter object: the concentration vector `alpha`. -/
structure Dirichlet where
  alpha : List F64
deriving DecidableEq

/-- Modelled from the spec: the per-component Gamma construction is an
external collaborator (`crate::gamma::Gamma`, not part of the sources
under verification); per the spec it fails exactly when a parameter is
not strictly greater than zero, which is "structurally unreachable at
sampling time" because concentrations are validated `> 0`. -/
inductive GammaError where
  | ShapeTooSmall : GammaError
  | ScaleTooSmall : GammaError
deriving DecidableEq

/-- Modelled from the spec: a Gamma distribution object with shape and
scale parameters. -/
structure Gamma where
  shape : F64
  scale : F64
deriving DecidableEq

/-- Modelled from the spec: `Gamma::new(shape, scale)` fails when the
shape or the scale is not strictly greater than zero (the NaN-catching
`!(x > 0.0)` predicate), and otherwise stores both parameters. -/
def Gamma.new (shape scale : F64) : Except GammaError Gamma :=
  if !(F64.gt shape (F64.fin 0)) then .error .ShapeTooSmall
  else if !(F64.gt scale (F64.fin 0)) then .error .ScaleTooSmall
  else .ok ⟨shape, scale⟩

/-- Modelled from the spec: the random generator collaborator, reduced
to the one capability `sample` uses — drawing one Gamma variate from a
generator state and returning the advanced state. -/
structure GammaSampler (σ : Type) where
  draw : Gamma → σ → F64 × σ

/-- `Dirichlet::new`: reject vectors shorter than 2 with
`AlphaTooShort`, then reject any element failing `a[i] > 0.0` with
`AlphaTooSmall`, else store the vector unchanged. -/
def Dirichlet.new (alpha : List F64) : Except Error Dirichlet :=
  if alpha.length < 2 then .error .AlphaTooShort
  else if alpha.all (fun a => F64.gt a (F64.fin 0)) then .ok ⟨alpha⟩
  else .error .AlphaTooSmall

/-- `Dirichlet::new_with_size`: reject `!(alpha > 0.0)` with
`AlphaTooSmall`, then reject `size < 2` with `SizeTooSmall`, else store
`size` copies of `alpha`. -/
def Dirichlet.new_with_size (alpha : F64) (size : Nat) : Except Error Dirichlet :=
  if !(F64.gt alpha (F64.fin 0)) then .error .AlphaTooSmall
  else if size < 2 then .error .SizeTooSmall
  else .ok ⟨List.replicate size alpha⟩

/-- The first loop of `sample`: for each concentration `a`, build
`Gamma::new(a, 1.0)`, `.unwrap()` it (a failed unwrap is modelled as
`none`), draw one variate, and accumulate the running sum `sum += g`.
Returns the drawn variates in order, the accumulated sum, and the final
generator state. -/
def drawLoop {σ : Type} (R : GammaSampler σ) :
    List F64 → F64 → σ → Option (List F64 × F64 × σ)
  | [], acc, s => some ([], acc, s)
  | a :: rest, acc, s =>
    match Gamma.new a (F64.fin 1) with
    | .error _ => none
    | .ok g =>
      let p := R.draw g s
      match drawLoop R rest (F64.add acc p.1) p.2 with
      | none => none
      | some (xs, total, s') => some (p.1 :: xs, total, s')

/-- `Distribution::<Vec<f64>>::sample` for `Dirichlet`: draw one
Gamma(alpha[i], 1.0) variate per component while accumulating their sum
(starting from `0.0`), then multiply every variate by
`invacc = 1.0 / sum` in a single second pass. A panic of the internal
`.unwrap()` is modelled as `none`. -/
def Dirichlet.sample {σ : Type} (d : Dirichlet) (R : GammaSampler σ) (s : σ) :
    Option (List F64 × σ) :=
  match drawLoop R d.alpha (F64.fin 0) s with
  | none => none
  | some (gs, total, s') =>
    let invacc := F64.div (F64.fin 1) total
    some (gs.map (fun g => F64.mul g invacc), s')

/-- The sequence of Gamma(alpha[i], 1.0) draws produced by threading the
generator state through the components in order, together with the final
state — the mathematical description of what the first loop draws. -/
def gammaDraws {σ : Type} (R : GammaSampler σ) : List F64 → σ → List F64 × σ
  | [], s => ([], s)
  | a :: rest, s =>
    let p := R.draw ⟨a, F64.fin 1⟩ s
    let q := gammaDraws R rest p.2
    (p.1 :: q.1, q.2)

/-- Left-to-right floating-point sum starting from `0.0`, as the first
loop of `sample` accumulates it. -/
def sumF (gs : List F64) : F64 :=
  gs.foldl F64.add (F64.fin 0)

lemma Gamma.new_of_pos {shape : F64} (h : F64.gt shape (F64.fin 0) = true) :
    Gamma.new shape (F64.fin 1) = .ok ⟨shape, F64.fin 1⟩ := by
  have h1 : F64.gt (F64.fin 1) (F64.fin 0) = true := by decide
  simp [Gamma.new, h, h1]

lemma drawLoop_eq_gammaDraws {σ : Type} (R : GammaSampler σ) :
    ∀ (as : List F64), (∀ a ∈ as, F64.gt a (F64.fin 0) = true) →
    ∀ (acc : F64) (s : σ),
    drawLoop R as acc s =
      some ((gammaDraws R as s).1, (gammaDraws R as s).1.foldl F64.add acc,
        (gammaDraws R as s).2) := by
  intro as
  induction as with
  | nil => intro _ acc s; rfl
  | cons a rest ih =>
    intro h acc s
    have ha : F64.gt a (F64.fin 0) = true := h a (List.mem_cons_self a rest)
    have hrest : ∀ x ∈ rest, F64.gt x (F64.fin 0) = true :=
      fun x hx => h x (List.mem_cons_of_mem a hx)
    simp only [drawLoop, Gamma.new_of_pos ha]
    rw [ih hrest]
    simp [gammaDraws, List.foldl]

lemma sample_eq_of_pos {σ : Type} (R : GammaSampler σ) (s : σ) (d : Dirichlet)
    (h : ∀ a ∈ d.alpha, F64.gt a (F64.fin 0) = true) :
    d.sample R s =
      some ((gammaDraws R d.alpha s).1.map
        (fun g => F64.mul g (F64.div (F64.fin 1) (sumF (gammaDraws R d.alpha s).1))),
        (gammaDraws R d.alpha s).2) := by
  unfold Dirichlet.sample
  rw [drawLoop_eq_gammaDraws R d.alpha h (F64.fin 0) s]
  rfl

lemma gammaDraws_length {σ : Type} (R : GammaSampler σ) :
    ∀ (as : List F64) (s : σ), (gammaDraws R as s).1.length = as.length := by
  intro as
  induction as with
  | nil => intro s; rfl
  | cons a rest ih => intro s; simp [gammaDraws, ih]

lemma Dirichlet.new_ok_iff {v : List F64} {d : Dirichlet} :
    Dirichlet.new v = .ok d ↔
      2 ≤ v.length ∧ (∀ a ∈ v, F64.gt a (F64.fin 0) = true) ∧ d = ⟨v⟩ := by
  unfold Dirichlet.new
  by_cases h1 : v.length < 2
  · rw [if_pos h1]
    constructor
    · intro h; exact absurd h (by simp)
    · rintro ⟨h2, -, -⟩; omega
  · rw [if_neg h1]
    by_cases h2 : v.all (fun a => F64.gt a (F64.fin 0)) = true
    · rw [if_pos h2]
      constructor
      · intro h
        have hd : d = ⟨v⟩ := by injection h with h3; exact h3.symm
        exact ⟨by omega, List.all_eq_true.mp h2, hd⟩
      · rintro ⟨-, -, rfl⟩; rfl
    · rw [if_neg h2]
      constructor
      · intro h; exact absurd h (by simp)
      · rintro ⟨-, h3, -⟩
        exact absurd (List.all_eq_true.mpr h3) h2

lemma Dirichlet.new_with_size_ok_iff {a : F64} {n : Nat} {d : Dirichlet} :
    Dirichlet.new_with_size a n = .ok d ↔
      F64.gt a (F64.fin 0) = true ∧ 2 ≤ n ∧ d = ⟨List.replicate n a⟩ := by
  unfold Dirichlet.new_with_size
  cases hga : F64.gt a (F64.fin 0) with
  | false =>
    rw [if_pos (by simp [hga])]
    constructor
    · intro h; exact absurd h (by simp)
    · rintro ⟨h1, -, -⟩; exact absurd h1 (by simp)
  | true =>
    rw [if_neg (by simp [hga])]
    by_cases h2 : n < 2
    · rw [if_pos h2]
      constructor
      · intro h; exact absurd h (by simp)
      · rintro ⟨-, h3, -⟩; omega
    · rw [if_neg h2]
      constructor
      · intro h
        have hd : d = ⟨List.replicate n a⟩ := by injection h with h3; exact h3.symm
        exact ⟨rfl, by omega, hd⟩
      · rintro ⟨-, -, rfl⟩; rfl

lemma constructed_valid {d : Dirichlet}
    (h : (∃ v, Dirichlet.new v = .ok d) ∨ ∃ a n, Dirichlet.new_with_size a n = .ok d) :
    2 ≤ d.alpha.length ∧ ∀ x ∈ d.alpha, F64.gt x (F64.fin 0) = true := by
  rcases h with ⟨v, hv⟩ | ⟨a, n, hn⟩
  · obtain ⟨h1, h2, rfl⟩ := Dirichlet.new_ok_iff.mp hv
    exact ⟨h1, h2⟩
  · obtain ⟨h1, h2, rfl⟩ := Dirichlet.new_with_size_ok_iff.mp hn
    refine ⟨by simpa using h2, ?_⟩
    intro x hx
    rw [List.eq_of_mem_replicate hx]
    exact h1

lemma posFin_list_exists : ∀ {gs : List F64}, (∀ g ∈ gs, g.posFin = true) →
    ∃ qs : List ℚ, gs = qs.map F64.fin ∧ ∀ q ∈ qs, 0 < q := by
  intro gs
  induction gs with
  | nil => intro _; exact ⟨[], rfl, by simp⟩
  | cons g rest ih =>
    intro h
    obtain ⟨qs, hqs, hpos⟩ := ih (fun x hx => h x (List.mem_cons_of_mem g hx))
    have hg := h g (List.mem_cons_self g rest)
    cases g with
    | nan => simp [F64.posFin] at hg
    | inf s => simp [F64.posFin] at hg
    | fin q =>
      refine ⟨q :: qs, by simp [hqs], ?_⟩
      intro x hx
      rcases List.mem_cons.mp hx with rfl | hx
      · simpa [F64.posFin] using hg
      · exact hpos x hx

lemma foldl_add_map_fin (qs : List ℚ) : ∀ a : ℚ,
    (qs.map F64.fin).foldl F64.add (F64.fin a) = F64.fin (a + qs.sum) := by
  induction qs with
  | nil => intro a; simp [sumF]
  | cons q rest ih =>
    intro a
    simp only [List.map_cons, List.foldl_cons, F64.add, List.sum_cons]
    rw [ih (a + q)]
    ring_nf

lemma sumF_map_fin (qs : List ℚ) : sumF (qs.map F64.fin) = F64.fin qs.sum := by
  unfold sumF
  rw [foldl_add_map_fin qs 0, zero_add]

/-- A degenerate deterministic generator for concrete instantiations:
every Gamma draw returns the fixed value `x` and the state is unchanged. -/
def constSampler (x : F64) : GammaSampler Unit :=
  ⟨fun _ s => (x, s)⟩

/-- A concrete valid parameter object used in concrete instantiations. -/
def dEx : Dirichlet := ⟨[F64.fin 1, F64.fin 2]⟩

instance {ε α : Type} [DecidableEq ε] [DecidableEq α] : DecidableEq (Except ε α) :=
  fun x y =>
    match x, y with
    | .ok a, .ok b =>
      if h : a = b then .isTrue (by rw [h])
      else .isFalse (by intro hc; injection hc; contradiction)
    | .error a, .error b =>
      if h : a = b then .isTrue (by rw [h])
      else .isFalse (by intro hc; injection hc; contradiction)
    | .ok _, .error _ => .isFalse (by intro hc; injection hc)
    | .error _, .ok _ => .isFalse (by intro hc; injection hc)

/-- C1: for every valid Dirichlet parameter object (length ≥ 2, every
concentration strictly positive) and every generator, `sample` draws one
Gamma(alpha[i], 1.0) variate per index, forms `inv = 1.0 / sum` of their
sum, and returns exactly the vector of products `g[i] * inv`, whose
length equals the concentration vector's; the returned value is this
single normalized pass — no rejection, retry, clamping or second
normalization. -/
theorem C1_sample_normalizes_gamma_draws {σ : Type} (R : GammaSampler σ) (s : σ)
    (d : Dirichlet) (_hlen : 2 ≤ d.alpha.length)
    (hpos : ∀ a ∈ d.alpha, F64.gt a (F64.fin 0) = true) :
    ∃ xs s', d.sample R s = some (xs, s') ∧
      xs = (gammaDraws R d.alpha s).1.map
        (fun g => F64.mul g (F64.div (F64.fin 1) (sumF (gammaDraws R d.alpha s).1))) ∧
      s' = (gammaDraws R d.alpha s).2 ∧
      xs.length = d.alpha.length := by
  refine ⟨_, _, sample_eq_of_pos R s d hpos, rfl, rfl, ?_⟩
  rw [List.length_map, gammaDraws_length]

/-- Witness for C1 at the parameters `[1.0, 2.0]` and a generator whose
Gamma draws are all `1.0`. -/
theorem C1_witness :
    2 ≤ dEx.alpha.length ∧ (∀ a ∈ dEx.alpha, F64.gt a (F64.fin 0) = true) ∧
    ∃ xs s', dEx.sample (constSampler (F64.fin 1)) () = some (xs, s') ∧
      xs = (gammaDraws (constSampler (F64.fin 1)) dEx.alpha ()).1.map
        (fun g => F64.mul g (F64.div (F64.fin 1)
          (sumF (gammaDraws (constSampler (F64.fin 1)) dEx.alpha ()).1))) ∧
      s' = (gammaDraws (constSampler (F64.fin 1)) dEx.alpha ()).2 ∧
      xs.length = dEx.alpha.length :=
  ⟨by decide, by decide,
   C1_sample_normalizes_gamma_draws (constSampler (F64.fin 1)) () dEx
     (by decide) (by decide)⟩

/-- C2: every parameter object produced by `new` or `new_with_size`
holds a concentration vector of length at least 2 whose every element is
strictly greater than 0.0 and in particular not NaN. (The object is a
pure value: nothing in the embedded code mutates the stored vector after
construction.) -/
theorem C2_constructed_invariant (d : Dirichlet)
    (h : (∃ v, Dirichlet.new v = .ok d) ∨ ∃ a n, Dirichlet.new_with_size a n = .ok d) :
    2 ≤ d.alpha.length ∧ ∀ x ∈ d.alpha, F64.gt x (F64.fin 0) = true ∧ x ≠ F64.nan := by
  obtain ⟨h1, h2⟩ := constructed_valid h
  refine ⟨h1, fun x hx => ⟨h2 x hx, ?_⟩⟩
  have hgx := h2 x hx
  intro hnan
  rw [hnan] at hgx
  exact absurd hgx (by decide)

/-- Witness for C2 at the vector `[1.0, 2.0]`. -/
theorem C2_witness :
    ((∃ v, Dirichlet.new v = .ok dEx) ∨
      ∃ a n, Dirichlet.new_with_size a n = .ok dEx) ∧
    (2 ≤ dEx.alpha.length ∧ ∀ x ∈ dEx.alpha, F64.gt x (F64.fin 0) = true ∧ x ≠ F64.nan) :=
  ⟨Or.inl ⟨[F64.fin 1, F64.fin 2], by decide⟩,
   C2_constructed_invariant dEx (Or.inl ⟨[F64.fin 1, F64.fin 2], by decide⟩)⟩

/-- C3: `new(values)` returns `AlphaTooShort` exactly when the vector is
shorter than 2 (regardless of the elements), otherwise `AlphaTooSmall`
exactly when some element fails the `> 0.0` predicate (which is false
for 0, for negatives, and for NaN), and otherwise succeeds storing the
input vector unchanged. -/
theorem C3_new_error_taxonomy (v : List F64) :
    (Dirichlet.new v = .error .AlphaTooShort ↔ v.length < 2) ∧
    (Dirichlet.new v = .error .AlphaTooSmall ↔
      2 ≤ v.length ∧ ∃ a ∈ v, F64.gt a (F64.fin 0) = false) ∧
    (Dirichlet.new v = .ok ⟨v⟩ ↔
      2 ≤ v.length ∧ ∀ a ∈ v, F64.gt a (F64.fin 0) = true) ∧
    (∀ d, Dirichlet.new v = .ok d → d.alpha = v) ∧
    F64.gt (F64.fin 0) (F64.fin 0) = false ∧
    F64.gt (F64.fin (-1)) (F64.fin 0) = false ∧
    F64.gt F64.nan (F64.fin 0) = false := by
  refine ⟨?_, ?_, ?_, ?_, by decide, by decide, by decide⟩
  · unfold Dirichlet.new
    by_cases h1 : v.length < 2
    · simp [h1]
    · rw [if_neg h1]
      by_cases h2 : v.all (fun a => F64.gt a (F64.fin 0)) = true
      · rw [if_pos h2]; simp [h1]
      · rw [if_neg h2]; simp [h1]
  · unfold Dirichlet.new
    by_cases h1 : v.length < 2
    · rw [if_pos h1]
      constructor
      · intro h; exact absurd h (by simp)
      · rintro ⟨h2, -⟩; omega
    · rw [if_neg h1]
      by_cases h2 : v.all (fun a => F64.gt a (F64.fin 0)) = true
      · rw [if_pos h2]
        constructor
        · intro h; exact absurd h (by simp)
        · rintro ⟨-, a, ha, hfa⟩
          have hta := List.all_eq_true.mp h2 a ha
          rw [hfa] at hta
          exact absurd hta (by simp)
      · rw [if_neg h2]
        refine ⟨fun _ => ⟨by omega, ?_⟩, fun _ => rfl⟩
        simp only [List.all_eq_true] at h2
        push_neg at h2
        obtain ⟨a, ha, hpa⟩ := h2
        exact ⟨a, ha, Bool.eq_false_iff.mpr hpa⟩
  · constructor
    · intro h
      obtain ⟨h1, h2, -⟩ := Dirichlet.new_ok_iff.mp h
      exact ⟨h1, h2⟩
    · rintro ⟨h1, h2⟩
      exact Dirichlet.new_ok_iff.mpr ⟨h1, h2, rfl⟩
  · intro d h
    obtain ⟨-, -, rfl⟩ := Dirichlet.new_ok_iff.mp h
    rfl

/-- Witness for C3: a NaN element is rejected as `AlphaTooSmall`, the
empty vector as `AlphaTooShort`, and `[1.0, 2.0]` is stored unchanged. -/
theorem C3_witness :
    Dirichlet.new [F64.nan, F64.fin 1] = .error .AlphaTooSmall ∧
    Dirichlet.new ([] : List F64) = .error .AlphaTooShort ∧
    Dirichlet.new [F64.fin 1, F64.fin 2] = .ok ⟨[F64.fin 1, F64.fin 2]⟩ :=
  ⟨(C3_new_error_taxonomy [F64.nan, F64.fin 1]).2.1.mpr
     ⟨by decide, F64.nan, by decide, by decide⟩,
   (C3_new_error_taxonomy []).1.mpr (by decide),
   (C3_new_error_taxonomy [F64.fin 1, F64.fin 2]).2.2.1.mpr ⟨by decide, by decide⟩⟩

/-- C4: `new_with_size` rejects a shape that is not strictly positive
(including NaN) with `AlphaTooSmall`, rejects `size < 2` with
`SizeTooSmall` when the shape is valid; in particular
`new_with_size(0.5, 1)` gives `SizeTooSmall` and `new_with_size(0.0, 2)`
gives `AlphaTooSmall`. -/
theorem C4_new_with_size_error_conditions (alpha : F64) (size : Nat) :
    (F64.gt alpha (F64.fin 0) = false →
      Dirichlet.new_with_size alpha size = .error .AlphaTooSmall) ∧
    (F64.gt alpha (F64.fin 0) = true → size < 2 →
      Dirichlet.new_with_size alpha size = .error .SizeTooSmall) ∧
    Dirichlet.new_with_size (F64.fin (1 / 2)) 1 = .error .SizeTooSmall ∧
    Dirichlet.new_with_size (F64.fin 0) 2 = .error .AlphaTooSmall := by
  refine ⟨?_, ?_, ?_, by decide⟩
  · intro h
    unfold Dirichlet.new_with_size
    rw [if_pos (by simp [h])]
  · intro h1 h2
    unfold Dirichlet.new_with_size
    rw [if_neg (by simp [h1]), if_pos h2]
  · have hpos : F64.gt (F64.fin (1 / 2)) (F64.fin 0) = true := by
      show decide ((0 : ℚ) < 1 / 2) = true
      simp only [decide_eq_true_eq]
      norm_num
    unfold Dirichlet.new_with_size
    rw [hpos]
    rfl

/-- Witness for C4: NaN shape is rejected as `AlphaTooSmall` even with a
valid size. -/
theorem C4_witness :
    F64.gt F64.nan (F64.fin 0) = false ∧
    Dirichlet.new_with_size F64.nan 5 = .error .AlphaTooSmall :=
  ⟨by decide, (C4_new_with_size_error_conditions F64.nan 5).1 (by decide)⟩

/-- C5: `new_with_size(alpha, size)` with `alpha > 0.0` and `size ≥ 2`
succeeds, and the stored concentration vector has exactly `size`
elements, each equal to `alpha`. -/
theorem C5_new_with_size_success (alpha : F64) (size : Nat)
    (h1 : F64.gt alpha (F64.fin 0) = true) (h2 : 2 ≤ size) :
    ∃ d, Dirichlet.new_with_size alpha size = .ok d ∧
      d.alpha.length = size ∧ ∀ x ∈ d.alpha, x = alpha := by
  refine ⟨⟨List.replicate size alpha⟩,
    Dirichlet.new_with_size_ok_iff.mpr ⟨h1, h2, rfl⟩, by simp, ?_⟩
  intro x hx
  exact List.eq_of_mem_replicate hx

/-- Witness for C5 at `alpha = 3.0`, `size = 4`. -/
theorem C5_witness :
    F64.gt (F64.fin 3) (F64.fin 0) = true ∧ 2 ≤ 4 ∧
    ∃ d, Dirichlet.new_with_size (F64.fin 3) 4 = .ok d ∧
      d.alpha.length = 4 ∧ ∀ x ∈ d.alpha, x = F64.fin 3 :=
  ⟨by decide, by decide,
   C5_new_with_size_success (F64.fin 3) 4 (by decide) (by decide)⟩

lemma sum_map_mul (qs : List ℚ) (c : ℚ) :
    (qs.map (fun q => q * c)).sum = qs.sum * c := by
  induction qs with
  | nil => simp
  | cons q rest ih =>
    simp only [List.map_cons, List.sum_cons, ih]
    ring

/-- C6: for every parameter object built by `new` or `new_with_size`,
the internal `Gamma::new(alpha[i], 1.0)` is on the `Ok` branch at every
index (its error branch is unreachable because each concentration was
validated `> 0` at construction), so `sample` never fails or panics. -/
theorem C6_sample_infallible {σ : Type} (R : GammaSampler σ) (s : σ) (d : Dirichlet)
    (h : (∃ v, Dirichlet.new v = .ok d) ∨ ∃ a n, Dirichlet.new_with_size a n = .ok d) :
    (∀ a ∈ d.alpha, Gamma.new a (F64.fin 1) = .ok ⟨a, F64.fin 1⟩) ∧
    (d.sample R s).isSome = true := by
  obtain ⟨-, h2⟩ := constructed_valid h
  refine ⟨fun a ha => Gamma.new_of_pos (h2 a ha), ?_⟩
  rw [sample_eq_of_pos R s d h2]
  rfl

/-- Witness for C6 at `new([1.0, 2.0])` and a generator drawing `1.0`. -/
theorem C6_witness :
    ((∃ v, Dirichlet.new v = .ok dEx) ∨
      ∃ a n, Dirichlet.new_with_size a n = .ok dEx) ∧
    ((∀ a ∈ dEx.alpha, Gamma.new a (F64.fin 1) = .ok ⟨a, F64.fin 1⟩) ∧
      (dEx.sample (constSampler (F64.fin 1)) ()).isSome = true) :=
  ⟨Or.inl ⟨[F64.fin 1, F64.fin 2], by decide⟩,
   C6_sample_infallible (constSampler (F64.fin 1)) () dEx
     (Or.inl ⟨[F64.fin 1, F64.fin 2], by decide⟩)⟩

/-- C7: for a valid parameter object, whenever all Gamma draws are
finite and strictly positive (the normal, non-underflow case), every
element of the returned vector is ≥ 0 and the elements sum to exactly 1
in the exact-arithmetic model — in particular within the claim's
`1e-9` tolerance of 1.0. -/
theorem C7_nonneg_and_sum_one {σ : Type} (R : GammaSampler σ) (s : σ) (d : Dirichlet)
    (hlen : 2 ≤ d.alpha.length)
    (hpos : ∀ a ∈ d.alpha, F64.gt a (F64.fin 0) = true)
    (hnormal : ∀ g ∈ (gammaDraws R d.alpha s).1, g.posFin = true) :
    ∃ xs s', d.sample R s = some (xs, s') ∧
      (∀ x ∈ xs, ∃ q : ℚ, 0 ≤ q ∧ x = F64.fin q) ∧
      ∃ t : ℚ, sumF xs = F64.fin t ∧ |t - 1| < 1 / 1000000000 := by
  obtain ⟨qs, hqs, hqpos⟩ := posFin_list_exists hnormal
  have hlen' : (gammaDraws R d.alpha s).1.length = d.alpha.length :=
    gammaDraws_length R d.alpha s
  have hqsne : qs ≠ [] := by
    intro hnil
    rw [hnil] at hqs
    rw [hqs] at hlen'
    simp at hlen'
    omega
  have hS : 0 < qs.sum := List.sum_pos qs hqpos hqsne
  have hsum : sumF (gammaDraws R d.alpha s).1 = F64.fin qs.sum := by
    rw [hqs]
    exact sumF_map_fin qs
  have hinv : F64.div (F64.fin 1) (F64.fin qs.sum) = F64.fin (1 / qs.sum) := by
    simp only [F64.div]
    rw [if_neg (ne_of_gt hS)]
  have hxs : (gammaDraws R d.alpha s).1.map
      (fun g => F64.mul g (F64.div (F64.fin 1) (sumF (gammaDraws R d.alpha s).1)))
      = qs.map (fun q => F64.fin (q * (1 / qs.sum))) := by
    rw [hsum, hinv, hqs, List.map_map]
    rfl
  refine ⟨_, _, sample_eq_of_pos R s d hpos, ?_, ?_⟩
  · rw [hxs]
    intro x hx
    obtain ⟨q, hq, rfl⟩ := List.mem_map.mp hx
    refine ⟨q * (1 / qs.sum), ?_, rfl⟩
    have hq0 : 0 < q := hqpos q hq
    positivity
  · rw [hxs]
    refine ⟨1, ?_, by norm_num⟩
    have hmm : qs.map (fun q => F64.fin (q * (1 / qs.sum)))
        = (qs.map (fun q => q * (1 / qs.sum))).map F64.fin := by
      rw [List.map_map]
      rfl
    rw [hmm, sumF_map_fin, sum_map_mul]
    congr 1
    field_simp

/-- Witness for C7 at `[1.0, 2.0]` and a generator whose draws are all
`1.0`. -/
theorem C7_witness :
    2 ≤ dEx.alpha.length ∧
    (∀ a ∈ dEx.alpha, F64.gt a (F64.fin 0) = true) ∧
    (∀ g ∈ (gammaDraws (constSampler (F64.fin 1)) dEx.alpha ()).1, g.posFin = true) ∧
    ∃ xs s', dEx.sample (constSampler (F64.fin 1)) () = some (xs, s') ∧
      (∀ x ∈ xs, ∃ q : ℚ, 0 ≤ q ∧ x = F64.fin q) ∧
      ∃ t : ℚ, sumF xs = F64.fin t ∧ |t - 1| < 1 / 1000000000 :=
  ⟨by decide, by decide, by decide,
   C7_nonneg_and_sum_one (constSampler (F64.fin 1)) () dEx
     (by decide) (by decide) (by decide)⟩

/-- C8: if every Gamma draw evaluates to `0.0`, the accumulated sum is
`0.0`, the inverse `1.0 / 0.0` is `+inf`, and `sample` still returns a
vector (one NaN per component, from `0.0 * inf`) of full length — there
is no special handling, clamping or error report for this case. -/
theorem C8_total_underflow {σ : Type} (R : GammaSampler σ) (s : σ) (d : Dirichlet)
    (hpos : ∀ a ∈ d.alpha, F64.gt a (F64.fin 0) = true)
    (hzero : ∀ g ∈ (gammaDraws R d.alpha s).1, g = F64.fin 0) :
    sumF (gammaDraws R d.alpha s).1 = F64.fin 0 ∧
    F64.div (F64.fin 1) (F64.fin 0) = F64.inf true ∧
    d.sample R s =
      some (List.replicate d.alpha.length F64.nan, (gammaDraws R d.alpha s).2) := by
  have hgs : (gammaDraws R d.alpha s).1
      = List.replicate d.alpha.length (F64.fin 0) := by
    rw [← gammaDraws_length R d.alpha s]
    exact List.eq_replicate_of_mem hzero
  have hsum : sumF (gammaDraws R d.alpha s).1 = F64.fin 0 := by
    rw [hgs]
    have hrep : List.replicate d.alpha.length (F64.fin 0)
        = (List.replicate d.alpha.length (0 : ℚ)).map F64.fin := by
      rw [List.map_replicate]
    rw [hrep, sumF_map_fin]
    simp
  have hdiv : F64.div (F64.fin 1) (F64.fin 0) = F64.inf true := by decide
  have hmul : F64.mul (F64.fin 0) (F64.inf true) = F64.nan := by decide
  refine ⟨hsum, hdiv, ?_⟩
  rw [sample_eq_of_pos R s d hpos, hsum, hdiv, hgs, List.map_replicate, hmul]

/-- Witness for C8 at `[1.0, 2.0]` and a generator whose draws are all
`0.0`. -/
theorem C8_witness :
    (∀ a ∈ dEx.alpha, F64.gt a (F64.fin 0) = true) ∧
    (∀ g ∈ (gammaDraws (constSampler (F64.fin 0)) dEx.alpha ()).1, g = F64.fin 0) ∧
    (sumF (gammaDraws (constSampler (F64.fin 0)) dEx.alpha ()).1 = F64.fin 0 ∧
     F64.div (F64.fin 1) (F64.fin 0) = F64.inf true ∧
     dEx.sample (constSampler (F64.fin 0)) () =
       some (List.replicate dEx.alpha.length F64.nan,
         (gammaDraws (constSampler (F64.fin 0)) dEx.alpha ()).2)) :=
  ⟨by decide, by decide,
   C8_total_underflow (constSampler (F64.fin 0)) () dEx (by decide) (by decide)⟩

/-- C9: `sample` is a pure function of the parameter object and the
generator: equal parameters, equal generators and equal starting states
give identical output vectors and identical final generator states (the
pair returned by the embedded `sample` contains both). -/
theorem C9_sample_pure {σ : Type} (R₁ R₂ : GammaSampler σ) (d₁ d₂ : Dirichlet)
    (s₁ s₂ : σ) (hR : R₁ = R₂) (hd : d₁ = d₂) (hs : s₁ = s₂) :
    d₁.sample R₁ s₁ = d₂.sample R₂ s₂ := by
  subst hR
  subst hd
  subst hs
  rfl

/-- Witness for C9 at `[1.0, 2.0]` with the constant generator. -/
theorem C9_witness :
    dEx.sample (constSampler (F64.fin 1)) () = dEx.sample (constSampler (F64.fin 1)) () :=
  C9_sample_pure (constSampler (F64.fin 1)) (constSampler (F64.fin 1)) dEx dEx () ()
    rfl rfl rfl

/-- C10: in `new_with_size` the alpha check precedes the size check:
when both the shape and the size are invalid the result is
`AlphaTooSmall`, never `SizeTooSmall`. -/
theorem C10_alpha_check_first (alpha : F64) (size : Nat)
    (h1 : F64.gt alpha (F64.fin 0) = false) (_h2 : size < 2) :
    Dirichlet.new_with_size alpha size = .error .AlphaTooSmall ∧
    Dirichlet.new_with_size alpha size ≠ .error .SizeTooSmall := by
  have h : Dirichlet.new_with_size alpha size = .error .AlphaTooSmall := by
    unfold Dirichlet.new_with_size
    rw [if_pos (by simp [h1])]
  refine ⟨h, ?_⟩
  rw [h]
  decide

/-- Witness for C10: `new_with_size(0.0, 1)` yields `AlphaTooSmall`. -/
theorem C10_witness :
    F64.gt (F64.fin 0) (F64.fin 0) = false ∧ 1 < 2 ∧
    (Dirichlet.new_with_size (F64.fin 0) 1 = .error .AlphaTooSmall ∧
     Dirichlet.new_with_size (F64.fin 0) 1 ≠ .error .SizeTooSmall) :=
  ⟨by decide, by decide, C10_alpha_check_first (F64.fin 0) 1 (by decide) (by decide)⟩
